import Mathlib

/-!
Verification of the envfy/pushenv core: key derivation and device keyring,
the authenticated-encryption envelope, the remote addressing scheme with
legacy fallback, and the flows that compose them (push, pull, run, the
library config loader).

Conventions of the embedding:
- JS `Buffer`s (byte strings) are `List Byte` with `Byte := Fin 256`.
- JS strings that the code manipulates character-wise (envelopes, hex and
  base64 text, stored keyring fields) are `List Char`.
- The AES-256-GCM primitive from `node:crypto` is external to the
  repository; it is abstracted as an `AEAD` structure, with the standard
  correctness/authentication facts packaged in `GCMlike` and a concrete
  executable instance `modelAEAD` used to evaluate claims on inputs.
- PBKDF2 is likewise external and abstracted as a function parameter
  `kdf : List Char → List Byte → List Byte`; determinism is inherent in it
  being a function.  `modelKdf` is a concrete instance for evaluation.
- Randomness (IVs, salts) is passed in explicitly as arguments.
-/

namespace Envfy

/-- A byte, as stored in a node `Buffer`. -/
abbrev Byte := Fin 256

/-! ## Hex encoding (`buffer.toString("hex")` / `Buffer.from(s, "hex")`) -/

/-- Lower-case hex digit for a value below 16, as node emits. -/
def hexDigit (n : Nat) : Char :=
  if n < 10 then Char.ofNat (48 + n) else Char.ofNat (87 + n)

/-- Two hex characters of one byte. -/
def byteToHex (b : Byte) : List Char :=
  [hexDigit (b.val / 16), hexDigit (b.val % 16)]

/-- `buffer.toString("hex")`. -/
def bytesToHex (bs : List Byte) : List Char :=
  bs.flatMap byteToHex

/-- Value of a hex character; node accepts both cases. -/
def hexCharVal (c : Char) : Option Nat :=
  let n := c.toNat
  if 48 ≤ n ∧ n ≤ 57 then some (n - 48)
  else if 97 ≤ n ∧ n ≤ 102 then some (n - 87)
  else if 65 ≤ n ∧ n ≤ 70 then some (n - 55)
  else none

/-- `Buffer.from(s, "hex")`: decodes complete pairs of hex digits from the
front and stops at the first invalid pair, as node does. -/
def hexToBytes : List Char → List Byte
  | c1 :: c2 :: rest =>
    match hexCharVal c1, hexCharVal c2 with
    | some h, some l => (⟨(16 * h + l) % 256, Nat.mod_lt _ (by decide)⟩ : Byte) :: hexToBytes rest
    | _, _ => []
  | _ => []

/-! ## JS string splitting -/

/-- `s.split(sep)` of JavaScript, on character lists.  Always returns at
least one (possibly empty) piece. -/
def jsSplit (sep : Char) : List Char → List (List Char)
  | [] => [[]]
  | c :: rest =>
    match jsSplit sep rest with
    | [] => [[]]
    | h :: t => if c = sep then [] :: h :: t else (c :: h) :: t

/-- The `indexOf`/`slice` idiom used by pull and run: split a string at its
first occurrence of `sep`; `none` when `indexOf` returns `-1`. -/
def splitFirst (sep : Char) : List Char → Option (List Char × List Char)
  | [] => none
  | c :: rest =>
    if c = sep then some ([], rest)
    else
      match splitFirst sep rest with
      | none => none
      | some p => some (c :: p.1, p.2)

/-! ## The authenticated cipher (abstract AES-256-GCM) -/

/-- An authenticated cipher: `enc key iv plaintext` yields
`(ciphertext, authTag)`; `dec key iv ciphertext authTag` yields the
plaintext or `none` on authentication failure.  AES-256-GCM from
`node:crypto` is one such pair of functions. -/
structure AEAD where
  enc : List Byte → List Byte → List Byte → List Byte × List Byte
  dec : List Byte → List Byte → List Byte → List Byte → Option (List Byte)

/-- The facts about AES-GCM that the envelope code relies on: decryption
inverts encryption, a successful decryption can only come from the matching
encryption (ideal unforgeability), ciphertext length equals plaintext
length (GCM is a stream mode), tags are nonempty (128-bit), the tag
determines the ciphertext (ideal authentication) and the ciphertext
determines the tag (GCM computes the tag deterministically from it). -/
structure GCMlike (A : AEAD) : Prop where
  dec_enc : ∀ key iv p, A.dec key iv (A.enc key iv p).1 (A.enc key iv p).2 = some p
  enc_dec : ∀ key iv ct tag p, A.dec key iv ct tag = some p → A.enc key iv p = (ct, tag)
  ct_len : ∀ key iv p, ((A.enc key iv p).1).length = p.length
  tag_ne : ∀ key iv p, (A.enc key iv p).2 ≠ []
  tag_inj : ∀ key iv p q, (A.enc key iv p).2 = (A.enc key iv q).2 →
    (A.enc key iv p).1 = (A.enc key iv q).1
  ct_inj : ∀ key iv p q, (A.enc key iv p).1 = (A.enc key iv q).1 →
    (A.enc key iv p).2 = (A.enc key iv q).2

/-- A concrete executable cipher satisfying `GCMlike`, used to evaluate the
claims on explicit inputs: the ciphertext is the plaintext and the tag is a
marker byte followed by key, iv and ciphertext. -/
def modelAEAD : AEAD where
  enc := fun key iv p => (p, (0 : Byte) :: (key ++ iv ++ p))
  dec := fun key iv ct tag => if tag = (0 : Byte) :: (key ++ iv ++ ct) then some ct else none

/-! ## The envelope (src/utils/crypto.ts) -/

/-- Result of `decrypt`: the plaintext, the thrown format error
(`Invalid encrypted data format`), or the authentication failure thrown by
`decipher.final` on a bad tag. -/
inductive DecryptResult where
  | ok (plaintext : List Byte)
  | formatError
  | authError
deriving DecidableEq

/-- The envelope serialization of `encrypt`:
`iv.toString("hex") + ":" + authTag.toString("hex") + ":" + encrypted`. -/
def serializeEnvelope (iv authTag ct : List Byte) : List Char :=
  bytesToHex iv ++ ':' :: (bytesToHex authTag ++ ':' :: bytesToHex ct)

/-- `encrypt(plaintext, key)` of src/utils/crypto.ts, with the fresh
random IV (`crypto.randomBytes(IV_LENGTH)`) passed in explicitly and the
plaintext taken as its UTF-8 bytes. -/
def encrypt (A : AEAD) (iv : List Byte) (plaintext : List Byte) (key : List Byte) : List Char :=
  serializeEnvelope iv (A.enc key iv plaintext).2 (A.enc key iv plaintext).1

/-- `decrypt(encryptedData, key)` of src/utils/crypto.ts: destructure
`encryptedData.split(":")` into its first three pieces, throw the format
error when any is missing or empty, otherwise hex-decode and run the
authenticated decipher. -/
def decrypt (A : AEAD) (encryptedData : List Char) (key : List Byte) : DecryptResult :=
  let parts := jsSplit ':' encryptedData
  let ivHex := parts.getD 0 []
  let authTagHex := parts.getD 1 []
  let encrypted := parts.getD 2 []
  if ivHex = [] ∨ authTagHex = [] ∨ encrypted = [] then DecryptResult.formatError
  else
    match A.dec key (hexToBytes ivHex) (hexToBytes encrypted) (hexToBytes authTagHex) with
    | some p => DecryptResult.ok p
    | none => DecryptResult.authError

/-- `deriveKeyFromPassphrase(passphrase, salt?)` of src/utils/crypto.ts:
PBKDF2 is abstracted as `kdf`; the secure random salt drawn when none is
supplied is passed in as `rnd`.  Returns `(key, usedSalt)`. -/
def deriveKeyFromPassphrase (kdf : List Char → List Byte → List Byte) (rnd : List Byte)
    (passphrase : List Char) (salt : Option (List Byte)) : List Byte × List Byte :=
  let usedSalt := salt.getD rnd
  (kdf passphrase usedSalt, usedSalt)

/-- A concrete executable key-derivation function for evaluating claims:
the key is the salt extended by a byte depending on the passphrase. -/
def modelKdf : List Char → List Byte → List Byte :=
  fun passphrase salt => salt ++ [(⟨passphrase.length % 256, Nat.mod_lt _ (by decide)⟩ : Byte)]

/-! ## Base64 (`buffer.toString("base64")` / `Buffer.from(s, "base64")`) -/

/-- Character of one 6-bit group in the standard base64 alphabet. -/
def base64Char (n : Nat) : Char :=
  if n < 26 then Char.ofNat (65 + n)
  else if n < 52 then Char.ofNat (97 + n - 26)
  else if n < 62 then Char.ofNat (48 + n - 52)
  else if n = 62 then '+' else '/'

/-- Value of a base64 alphabet character; everything else (including the
padding `=`) yields `none` and is skipped by the lenient node decoder. -/
def base64CharVal (c : Char) : Option Nat :=
  let n := c.toNat
  if 65 ≤ n ∧ n ≤ 90 then some (n - 65)
  else if 97 ≤ n ∧ n ≤ 122 then some (n - 97 + 26)
  else if 48 ≤ n ∧ n ≤ 57 then some (n - 48 + 52)
  else if c = '+' then some 62
  else if c = '/' then some 63
  else none

/-- Reassemble bytes from a run of 6-bit values, four values giving three
bytes, with the partial-group handling of base64. -/
def base64Group : List Nat → List Byte
  | a :: b :: c :: d :: rest =>
    (⟨(a * 4 + b / 16) % 256, Nat.mod_lt _ (by decide)⟩ : Byte) ::
    (⟨((b % 16) * 16 + c / 4) % 256, Nat.mod_lt _ (by decide)⟩ : Byte) ::
    (⟨((c % 4) * 64 + d) % 256, Nat.mod_lt _ (by decide)⟩ : Byte) ::
    base64Group rest
  | [a, b, c] =>
    [(⟨(a * 4 + b / 16) % 256, Nat.mod_lt _ (by decide)⟩ : Byte),
     (⟨((b % 16) * 16 + c / 4) % 256, Nat.mod_lt _ (by decide)⟩ : Byte)]
  | [a, b] => [(⟨(a * 4 + b / 16) % 256, Nat.mod_lt _ (by decide)⟩ : Byte)]
  | _ => []

/-- `Buffer.from(s, "base64")`: node ignores characters outside the
alphabet (such as padding) and decodes the remaining 6-bit groups. -/
def base64Decode (s : List Char) : List Byte :=
  base64Group (s.filterMap base64CharVal)

/-- `buffer.toString("base64")` with standard `=` padding. -/
def base64Encode : List Byte → List Char
  | [] => []
  | [a] => [base64Char (a.val / 4), base64Char ((a.val % 4) * 16), '=', '=']
  | [a, b] =>
    [base64Char (a.val / 4), base64Char ((a.val % 4) * 16 + b.val / 16),
     base64Char ((b.val % 16) * 4), '=']
  | a :: b :: c :: rest =>
    base64Char (a.val / 4) :: base64Char ((a.val % 4) * 16 + b.val / 16) ::
    base64Char ((b.val % 16) * 4 + c.val / 64) :: base64Char (c.val % 64) ::
    base64Encode rest

/-! ## Device keyring (utils/config.ts) -/

/-- A `KeyEntry` of the global keys file: `projectId`, the encoded salt,
the base64-encoded derived key, and the creation timestamp.  The `salt`
and `key` fields hold the stored strings exactly as the code wrote them. -/
structure KeyEntry where
  projectId : String
  salt : List Char
  key : List Char
  createdAt : String
deriving DecidableEq

/-- `getKeyEntry(projectId)`: first entry with a matching project id. -/
def getKeyEntry (keys : List KeyEntry) (projectId : String) : Option KeyEntry :=
  keys.find? (fun k => k.projectId == projectId)

/-- `saveKeyEntry(entry)` on the in-file list of keys: update the existing
entry for the same project id (the `findIndex`/assignment branch) or
append a new one (the `push` branch). -/
def saveKeyEntry : List KeyEntry → KeyEntry → List KeyEntry
  | [], entry => [entry]
  | k :: rest, entry =>
    if k.projectId = entry.projectId then entry :: rest
    else k :: saveKeyEntry rest entry

/-- `deleteKeyEntry(projectId)`: filter out matching entries; `none` when
nothing matched and the function returns without writing the file, `some`
of the written contents otherwise. -/
def deleteKeyEntry (keys : List KeyEntry) (projectId : String) : Option (List KeyEntry) :=
  let filtered := keys.filter (fun k => k.projectId != projectId)
  if filtered.length = keys.length then none else some filtered

/-- The stored keyring state after `deleteKeyEntry` (unchanged when no
write happened). -/
def deleteKeyEntryState (keys : List KeyEntry) (projectId : String) : List KeyEntry :=
  (deleteKeyEntry keys projectId).getD keys

/-! ## Keyring entries created by the commands -/

/-- The `KeyEntry` written by `initCommand`: a fresh random salt and the
key derived from the passphrase, both stored base64-encoded. -/
def initKeyEntry (kdf : List Char → List Byte → List Byte) (projectId : String)
    (passphrase : List Char) (salt : List Byte) (now : String) : KeyEntry :=
  ⟨projectId, base64Encode salt, base64Encode (kdf passphrase salt), now⟩

/-- The `KeyEntry` written by `pullCommand`/`runCommand` after a first
successful decrypt: the salt field holds the hex prefix of the downloaded
data as-is, the key field the base64-encoded derived key. -/
def pullKeyEntry (kdf : List Char → List Byte → List Byte) (projectId : String)
    (passphrase : List Char) (saltHex : List Char) (now : String) : KeyEntry :=
  ⟨projectId, saltHex, base64Encode (kdf passphrase (hexToBytes saltHex)), now⟩

/-- The payload uploaded by `pushCommand`: it decodes the keyring entry
fields as base64 (`Buffer.from(keyEntry.salt, "base64")`), encrypts the
env content under the stored key, and prepends the salt hex-encoded:
`salt.toString("hex") + ":" + encrypted`. -/
def pushUploadData (A : AEAD) (iv : List Byte) (entry : KeyEntry)
    (envContent : List Byte) : List Char :=
  let salt := base64Decode entry.salt
  let key := base64Decode entry.key
  bytesToHex salt ++ ':' :: encrypt A iv envContent key

/-! ## The decrypt attempt of pull/run with keyring self-healing -/

/-- Outcome of the download-decrypt step of `pullCommand`/`runCommand`. -/
inductive RunOutcome where
  | ok (plaintext : List Byte)
  | invalidDataFormat
  | incorrectPassphrase
  | decryptionFailed
deriving DecidableEq

/-- The salt-extraction and decrypt attempt shared by `pullCommand` and
`runCommand`, with its keyring side effect: split the downloaded data at
the first colon (exiting before the `try` block when there is none), use
the cached key when a keyring entry exists or derive one from the
passphrase otherwise, decrypt, persist the key on first success, and on
any caught error delete the project's keyring entry when one exists.  The
`auth`-matching error message surfaces as "Incorrect passphrase", other
errors as "Decryption failed".  Returns the outcome and the new keyring. -/
def runDecryptAttempt (A : AEAD) (kdf : List Char → List Byte → List Byte)
    (keys : List KeyEntry) (projectId : String) (passphrase : List Char)
    (now : String) (encryptedData : List Char) : RunOutcome × List KeyEntry :=
  match splitFirst ':' encryptedData with
  | none => (RunOutcome.invalidDataFormat, keys)
  | some (saltHex, actualEncryptedData) =>
    let existing := getKeyEntry keys projectId
    let keyBuffer :=
      match existing with
      | some e => base64Decode e.key
      | none => kdf passphrase (hexToBytes saltHex)
    match decrypt A actualEncryptedData keyBuffer with
    | DecryptResult.ok p =>
      (RunOutcome.ok p,
        match existing with
        | some _ => keys
        | none => saveKeyEntry keys ⟨projectId, saltHex, base64Encode keyBuffer, now⟩)
    | DecryptResult.authError =>
      (RunOutcome.incorrectPassphrase,
        if (getKeyEntry keys projectId).isSome then deleteKeyEntryState keys projectId else keys)
    | DecryptResult.formatError =>
      (RunOutcome.decryptionFailed,
        if (getKeyEntry keys projectId).isSome then deleteKeyEntryState keys projectId else keys)

/-! ## Remote addressing (the r2 client with stage support) -/

/-- Modelled from the spec: `DEFAULT_STAGE` is defined in the stage-aware
`utils/config.ts`, which is not under src/ (the r2 client only imports
it); the spec names development as the default stage. -/
def DEFAULT_STAGE : String := "development"

/-- `getR2Key(projectId, stage)`, the stage-namespaced primary key. -/
def getR2Key (projectId stage : String) : String :=
  projectId ++ ("/") ++ stage ++ ("/env.encrypted")

/-- `getLegacyR2Key(projectId)`, the stage-less legacy key. -/
def getLegacyR2Key (projectId : String) : String :=
  projectId ++ ("/env.encrypted")

/-- `downloadFromR2(projectId, stage)` against a blob store modelled as a
partial map from keys to bodies (`none` covering both a missing object and
a missing body): try the stage key; on failure fall back to the legacy key
only when the stage is the default stage. -/
def downloadFromR2 (store : String → Option String) (projectId stage : String) : Option String :=
  match store (getR2Key projectId stage) with
  | some body => some body
  | none =>
    if stage = DEFAULT_STAGE then store (getLegacyR2Key projectId)
    else none

/-- `existsInR2(projectId, stage)`: head the stage key, falling back to
the legacy key only for the default stage. -/
def existsInR2 (store : String → Option String) (projectId stage : String) : Bool :=
  match store (getR2Key projectId stage) with
  | some _ => true
  | none =>
    if stage = DEFAULT_STAGE then (store (getLegacyR2Key projectId)).isSome
    else false

/-! ## Version ledger -/

/-- Modelled from the spec: one immutable `Version` of a stage's history
(`sequenceNumber`, `timestamp`, optional `message`, `encryptedPayload`).
The ledger implementation (the versioned push and the diff/history/
rollback commands the newest CLI imports) is not under src/; only its
callers are. -/
structure Version where
  sequenceNumber : Nat
  timestamp : Nat
  message : Option String
  encryptedPayload : List Char
deriving DecidableEq

/-- Modelled from the spec: the highest sequence number of a stage's
ledger, `0` when no versions exist. -/
def currentMax (ledger : List Version) : Nat :=
  ledger.foldr (fun v m => Nat.max v.sequenceNumber m) 0

/-- Modelled from the spec: `push` computes `next = currentMax + 1` and
appends a `Version` with `next`, timestamp, message and sealed payload. -/
def pushVersion (ledger : List Version) (timestamp : Nat) (message : Option String)
    (payload : List Char) : List Version :=
  ledger ++ [⟨currentMax ledger + 1, timestamp, message, payload⟩]

/-- Modelled from the spec: `listVersions` returns the ordered sequence
numbers of the ledger's version metadata. -/
def listVersions (ledger : List Version) : List Nat :=
  ledger.map Version.sequenceNumber

/-- A sequence of successful pushes applied in order. -/
def pushMany (ledger : List Version) (pushes : List (Nat × Option String × List Char)) :
    List Version :=
  pushes.foldl (fun l p => pushVersion l p.1 p.2.1 p.2.2) ledger

/-! ## The library config() loader (process.env population loop) -/

/-- The `process.env` population loop of the library `config()` function:
for each parsed key/value pair, skip it when the key is already present
and `override` is false, otherwise set it.  `process.env` is modelled as a
partial map. -/
def configPopulate (parsed : List (String × String)) (override : Bool)
    (env : String → Option String) : String → Option String :=
  parsed.foldl
    (fun acc kv =>
      if (acc kv.1).isSome = true ∧ override = false then acc
      else fun k => if k = kv.1 then some kv.2 else acc k)
    env

/-! ## Sample concrete inputs for evaluating the claims -/

/-- A sample 32-byte key (KEY_LENGTH = 32). -/
def sampleKey : List Byte := List.replicate 32 0

/-- A sample 12-byte IV (IV_LENGTH = 12). -/
def sampleIv : List Byte := List.replicate 12 0

/-- A sample 16-byte salt (SALT_LENGTH = 16). -/
def sampleSalt : List Byte := List.replicate 16 0

/-- A sample keyring entry whose cached key does not match the key a
payload was sealed under (a stale or rotated key). -/
def sampleStaleEntry : KeyEntry :=
  ⟨"proj", bytesToHex sampleSalt, base64Encode (List.replicate 32 1), "t0"⟩

/-- An operation on the device keyring: the upsert of `saveKeyEntry` or
the removal of `deleteKeyEntry`. -/
inductive KeyringOp where
  | save (entry : KeyEntry)
  | del (projectId : String)

/-- Apply a sequence of keyring operations to the stored key list. -/
def applyOps (keys : List KeyEntry) : List KeyringOp → List KeyEntry
  | [] => keys
  | KeyringOp.save e :: rest => applyOps (saveKeyEntry keys e) rest
  | KeyringOp.del pid :: rest => applyOps (deleteKeyEntryState keys pid) rest

/-- The keyring invariant: at most one entry per project id. -/
def atMostOnePerProject (keys : List KeyEntry) : Prop :=
  (keys.map KeyEntry.projectId).Nodup

/-! ## Helper lemmas: hex encoding and splitting -/

theorem hexCharVal_hexDigit : ∀ d : Fin 16, hexCharVal (hexDigit d.val) = some d.val := by decide

theorem hexDigit_ne_colon : ∀ d : Fin 16, hexDigit d.val ≠ ':' := by decide

theorem hexToBytes_bytesToHex : ∀ bs : List Byte, hexToBytes (bytesToHex bs) = bs
  | [] => rfl
  | b :: bs => by
    have hb := b.isLt
    have hh : hexCharVal (hexDigit (b.val / 16)) = some (b.val / 16) :=
      hexCharVal_hexDigit ⟨b.val / 16, by omega⟩
    have hl : hexCharVal (hexDigit (b.val % 16)) = some (b.val % 16) :=
      hexCharVal_hexDigit ⟨b.val % 16, by omega⟩
    have hval : (16 * (b.val / 16) + b.val % 16) % 256 = b.val := by omega
    simp only [bytesToHex, List.flatMap_cons, byteToHex, List.cons_append, List.nil_append,
      hexToBytes, hh, hl]
    refine congrArg₂ List.cons (Fin.ext hval) ?_
    exact hexToBytes_bytesToHex bs

theorem colon_not_mem_bytesToHex (bs : List Byte) : ':' ∉ bytesToHex bs := by
  intro h
  simp only [bytesToHex, List.mem_flatMap, byteToHex, List.mem_cons, List.not_mem_nil,
    or_false, List.mem_singleton] at h
  obtain ⟨b, _, hmem⟩ := h
  have hb := b.isLt
  rcases hmem with h1 | h1
  · exact hexDigit_ne_colon ⟨b.val / 16, by omega⟩ h1.symm
  · exact hexDigit_ne_colon ⟨b.val % 16, by omega⟩ h1.symm

theorem bytesToHex_ne_nil (bs : List Byte) (h : bs ≠ []) : bytesToHex bs ≠ [] := by
  cases bs with
  | nil => exact absurd rfl h
  | cons b rest => simp [bytesToHex, byteToHex]

theorem jsSplit_ne_nil (sep : Char) : ∀ s : List Char, jsSplit sep s ≠ []
  | [] => by simp [jsSplit]
  | c :: rest => by
    unfold jsSplit
    cases h : jsSplit sep rest with
    | nil => simp
    | cons hd tl =>
      dsimp only
      split <;> simp

theorem jsSplit_no_sep (sep : Char) : ∀ s : List Char, sep ∉ s → jsSplit sep s = [s]
  | [], _ => rfl
  | c :: rest, h => by
    have hc : ¬ c = sep := fun hc => h (hc ▸ List.mem_cons_self c rest)
    have hrest : sep ∉ rest := fun hm => h (List.mem_cons_of_mem c hm)
    unfold jsSplit
    rw [jsSplit_no_sep sep rest hrest]
    simp [hc]

theorem jsSplit_append (sep : Char) (b : List Char) :
    ∀ a : List Char, sep ∉ a → jsSplit sep (a ++ sep :: b) = a :: jsSplit sep b
  | [], _ => by
    show (match jsSplit sep b with
      | [] => [[]]
      | hd :: tl => if sep = sep then [] :: hd :: tl else (sep :: hd) :: tl) =
        [] :: jsSplit sep b
    cases h : jsSplit sep b with
    | nil => exact absurd h (jsSplit_ne_nil sep b)
    | cons hd tl => simp
  | c :: a, h => by
    have hc : ¬ c = sep := fun hc => h (hc ▸ List.mem_cons_self c a)
    have ha : sep ∉ a := fun hm => h (List.mem_cons_of_mem c hm)
    show (match jsSplit sep (a ++ sep :: b) with
      | [] => [[]]
      | hd :: tl => if c = sep then [] :: hd :: tl else (c :: hd) :: tl) =
        (c :: a) :: jsSplit sep b
    rw [jsSplit_append sep b a ha]
    simp [hc]

theorem jsSplit_serializeEnvelope (iv tag ct : List Byte) :
    jsSplit ':' (serializeEnvelope iv tag ct) = [bytesToHex iv, bytesToHex tag, bytesToHex ct] := by
  unfold serializeEnvelope
  rw [jsSplit_append ':' _ _ (colon_not_mem_bytesToHex iv),
    jsSplit_append ':' _ _ (colon_not_mem_bytesToHex tag),
    jsSplit_no_sep ':' _ (colon_not_mem_bytesToHex ct)]

theorem decrypt_serializeEnvelope (A : AEAD) (key iv tag ct : List Byte)
    (hiv : iv ≠ []) (htag : tag ≠ []) (hct : ct ≠ []) :
    decrypt A (serializeEnvelope iv tag ct) key =
      match A.dec key iv ct tag with
      | some p => DecryptResult.ok p
      | none => DecryptResult.authError := by
  unfold decrypt
  rw [jsSplit_serializeEnvelope]
  simp only [List.getD, List.get?, Option.getD_some]
  rw [if_neg, hexToBytes_bytesToHex, hexToBytes_bytesToHex, hexToBytes_bytesToHex]
  push_neg
  exact ⟨bytesToHex_ne_nil iv hiv, bytesToHex_ne_nil tag htag, bytesToHex_ne_nil ct hct⟩

theorem modelAEAD_gcmlike : GCMlike modelAEAD := by
  constructor
  · intro key iv p
    simp [modelAEAD]
  · intro key iv ct tag p h
    simp only [modelAEAD, Option.ite_none_right_eq_some, Option.some.injEq] at h
    obtain ⟨h1, h2⟩ := h
    subst h2
    simp [modelAEAD, h1]
  · intro key iv p
    simp [modelAEAD]
  · intro key iv p
    simp [modelAEAD]
  · intro key iv p q h
    simp only [modelAEAD, List.cons.injEq, true_and] at h
    exact List.append_cancel_left h
  · intro key iv p q h
    simp only [modelAEAD] at h ⊢
    rw [h]

/-! ## Claim C1: encrypt/decrypt round-trip -/

/-- C1 (amended): for every non-empty plaintext, passphrase and salt,
decrypting the output of `encrypt` with the key derived from the
passphrase and salt returns the plaintext.  (As stated over all
plaintexts the claim fails: the empty plaintext yields an empty ciphertext
field, which `decrypt` rejects as a format error.) -/
theorem c1_round_trip (A : AEAD) (hA : GCMlike A) (kdf : List Char → List Byte → List Byte)
    (rnd : List Byte) (passphrase : List Char) (salt : List Byte) (iv P : List Byte)
    (hiv : iv.length = 12) (hP : P ≠ []) :
    decrypt A (encrypt A iv P (deriveKeyFromPassphrase kdf rnd passphrase (some salt)).1)
      (deriveKeyFromPassphrase kdf rnd passphrase (some salt)).1 = DecryptResult.ok P := by
  set key := (deriveKeyFromPassphrase kdf rnd passphrase (some salt)).1 with hkey
  have hiv2 : iv ≠ [] := by
    intro h
    rw [h] at hiv
    simp at hiv
  have hct : (A.enc key iv P).1 ≠ [] := by
    intro h
    apply hP
    have := hA.ct_len key iv P
    rw [h] at this
    exact (List.length_eq_zero.mp this.symm)
  unfold encrypt
  rw [decrypt_serializeEnvelope A key iv _ _ hiv2 (hA.tag_ne key iv P) hct]
  rw [hA.dec_enc key iv P]

/-- Witness for C1 at concrete inputs. -/
theorem c1_round_trip_witness :
    (List.length sampleIv = 12 ∧ ([1, 2, 3] : List Byte) ≠ []) ∧
    decrypt modelAEAD
      (encrypt modelAEAD sampleIv [1, 2, 3]
        (deriveKeyFromPassphrase modelKdf [] (['p']) (some sampleSalt)).1)
      (deriveKeyFromPassphrase modelKdf [] (['p']) (some sampleSalt)).1 =
      DecryptResult.ok [1, 2, 3] :=
  ⟨⟨by decide, by decide⟩,
    c1_round_trip modelAEAD modelAEAD_gcmlike modelKdf [] (['p']) sampleSalt sampleIv
      [1, 2, 3] (by decide) (by decide)⟩

/-- Counterexample for C1 as stated: at the empty plaintext the round trip
does not return the plaintext, it fails with the format error. -/
theorem c1_counterexample :
    decrypt modelAEAD
      (encrypt modelAEAD sampleIv []
        (deriveKeyFromPassphrase modelKdf [] (['p']) (some sampleSalt)).1)
      (deriveKeyFromPassphrase modelKdf [] (['p']) (some sampleSalt)).1 =
      DecryptResult.formatError ∧
    DecryptResult.formatError ≠ DecryptResult.ok [] := by decide

/-! ## Claim C6: tamper detection -/

/-- C6 (amended): for an envelope sealed over a non-empty plaintext,
flipping any single byte of the ciphertext field or of the
authentication-tag field makes `decrypt` fail with the authentication
error; it never returns plaintext for such a modified envelope.  (For the
empty plaintext the claim as stated fails: the envelope's ciphertext field
is empty and a tag flip surfaces as a format error instead.) -/
theorem c6_tamper_detection (A : AEAD) (hA : GCMlike A) (key iv P : List Byte)
    (hiv : iv.length = 12) (hP : P ≠ []) :
    (∀ i b, ∀ h : i < ((A.enc key iv P).1).length, b ≠ ((A.enc key iv P).1).get ⟨i, h⟩ →
      decrypt A (serializeEnvelope iv (A.enc key iv P).2 (((A.enc key iv P).1).set i b)) key =
        DecryptResult.authError) ∧
    (∀ i b, ∀ h : i < ((A.enc key iv P).2).length, b ≠ ((A.enc key iv P).2).get ⟨i, h⟩ →
      decrypt A (serializeEnvelope iv (((A.enc key iv P).2).set i b) (A.enc key iv P).1) key =
        DecryptResult.authError) := by
  have hiv2 : iv ≠ [] := by
    intro h
    rw [h] at hiv
    simp at hiv
  have hct : (A.enc key iv P).1 ≠ [] := by
    intro h
    apply hP
    have := hA.ct_len key iv P
    rw [h] at this
    exact (List.length_eq_zero.mp this.symm)
  constructor
  · intro i b h hb
    have hct2 : ((A.enc key iv P).1).set i b ≠ [] := by
      have hpos : 0 < (((A.enc key iv P).1).set i b).length := by
        rw [List.length_set]
        omega
      exact List.ne_nil_of_length_pos hpos
    rw [decrypt_serializeEnvelope A key iv _ _ hiv2 (hA.tag_ne key iv P) hct2]
    cases hdec : A.dec key iv (((A.enc key iv P).1).set i b) (A.enc key iv P).2 with
    | none => rfl
    | some q =>
      exfalso
      have henc := hA.enc_dec key iv _ _ q hdec
      have htag : (A.enc key iv q).2 = (A.enc key iv P).2 := by rw [henc]
      have hcteq : (A.enc key iv q).1 = (A.enc key iv P).1 := hA.tag_inj key iv q P htag
      have h1 : (A.enc key iv q).1 = ((A.enc key iv P).1).set i b := by rw [henc]
      have hset : ((A.enc key iv P).1).set i b = (A.enc key iv P).1 := by
        rw [← h1]
        exact hcteq
      apply hb
      have hb2 := congrArg (fun l => l.getD i (0 : Byte)) hset
      simpa [List.getD_eq_getElem, h, List.getElem_set_self, List.get_eq_getElem] using hb2
  · intro i b h hb
    have htag2 : ((A.enc key iv P).2).set i b ≠ [] := by
      have hpos : 0 < (((A.enc key iv P).2).set i b).length := by
        rw [List.length_set]
        omega
      exact List.ne_nil_of_length_pos hpos
    rw [decrypt_serializeEnvelope A key iv _ _ hiv2 htag2 hct]
    cases hdec : A.dec key iv (A.enc key iv P).1 (((A.enc key iv P).2).set i b) with
    | none => rfl
    | some q =>
      exfalso
      have henc := hA.enc_dec key iv _ _ q hdec
      have hcteq : (A.enc key iv q).1 = (A.enc key iv P).1 := by rw [henc]
      have htageq : (A.enc key iv q).2 = (A.enc key iv P).2 := hA.ct_inj key iv q P hcteq
      have h1 : (A.enc key iv q).2 = ((A.enc key iv P).2).set i b := by rw [henc]
      have hset : ((A.enc key iv P).2).set i b = (A.enc key iv P).2 := by
        rw [← h1]
        exact htageq
      apply hb
      have hb2 := congrArg (fun l => l.getD i (0 : Byte)) hset
      simpa [List.getD_eq_getElem, h, List.getElem_set_self, List.get_eq_getElem] using hb2

/-- Witness for C6: a concrete byte flip in the ciphertext field is
rejected as an authentication failure. -/
theorem c6_tamper_detection_witness :
    (List.length sampleIv = 12 ∧ ([1] : List Byte) ≠ []) ∧
    decrypt modelAEAD
      (serializeEnvelope sampleIv (modelAEAD.enc sampleKey sampleIv [1]).2
        (((modelAEAD.enc sampleKey sampleIv [1]).1).set 0 0)) sampleKey =
      DecryptResult.authError :=
  ⟨⟨by decide, by decide⟩,
    (c6_tamper_detection modelAEAD modelAEAD_gcmlike sampleKey sampleIv [1]
      (by decide) (by decide)).1 0 0 (by decide) (by decide)⟩

/-- Counterexample for C6 as stated: for the envelope of the empty
plaintext, flipping a byte of the tag field fails with the format error,
not the authentication error. -/
theorem c6_counterexample :
    (1 : Byte) ≠ ((modelAEAD.enc sampleKey sampleIv []).2).getD 0 0 ∧
    decrypt modelAEAD
      (serializeEnvelope sampleIv (((modelAEAD.enc sampleKey sampleIv []).2).set 0 1)
        (modelAEAD.enc sampleKey sampleIv []).1) sampleKey =
      DecryptResult.formatError ∧
    DecryptResult.formatError ≠ DecryptResult.authError := by decide

/-! ## Claim C7: format error characterization -/

/-- C7: `decrypt` fails with the format error exactly when the input does
not split on `:` into three non-empty leading fields (IV, tag,
ciphertext); with three non-empty fields present no format error is
raised (the result is then a success or an authentication error). -/
theorem c7_format_error_iff (A : AEAD) (key : List Byte) (s : List Char) :
    decrypt A s key = DecryptResult.formatError ↔
      ((jsSplit ':' s).getD 0 [] = [] ∨ (jsSplit ':' s).getD 1 [] = [] ∨
        (jsSplit ':' s).getD 2 [] = []) := by
  have hd : decrypt A s key =
      if ((jsSplit ':' s).getD 0 [] = [] ∨ (jsSplit ':' s).getD 1 [] = [] ∨
          (jsSplit ':' s).getD 2 [] = []) then DecryptResult.formatError
      else
        match A.dec key (hexToBytes ((jsSplit ':' s).getD 0 []))
            (hexToBytes ((jsSplit ':' s).getD 2 [])) (hexToBytes ((jsSplit ':' s).getD 1 [])) with
        | some p => DecryptResult.ok p
        | none => DecryptResult.authError := rfl
  rw [hd]
  by_cases h : (jsSplit ':' s).getD 0 [] = [] ∨ (jsSplit ':' s).getD 1 [] = [] ∨
      (jsSplit ':' s).getD 2 [] = []
  · rw [if_pos h]
    exact iff_of_true rfl h
  · rw [if_neg h]
    refine iff_of_false ?_ h
    cases A.dec key (hexToBytes ((jsSplit ':' s).getD 0 []))
        (hexToBytes ((jsSplit ':' s).getD 2 [])) (hexToBytes ((jsSplit ':' s).getD 1 [])) <;> simp

/-- Witness for C7 at a concrete malformed input. -/
theorem c7_format_error_iff_witness :
    decrypt modelAEAD (['a']) sampleKey = DecryptResult.formatError :=
  (c7_format_error_iff modelAEAD sampleKey (['a'])).mpr (by decide)

/-! ## Helper lemmas: first-colon splitting and keyring deletion -/

theorem splitFirst_append (sep : Char) (b : List Char) :
    ∀ a : List Char, sep ∉ a → splitFirst sep (a ++ sep :: b) = some (a, b)
  | [], _ => by simp [splitFirst]
  | c :: a, h => by
    have hc : ¬ c = sep := fun hc => h (hc ▸ List.mem_cons_self c a)
    have ha : sep ∉ a := fun hm => h (List.mem_cons_of_mem c hm)
    show splitFirst sep (c :: (a ++ sep :: b)) = some (c :: a, b)
    unfold splitFirst
    rw [if_neg hc, splitFirst_append sep b a ha]

theorem deleteKeyEntryState_eq_filter (keys : List KeyEntry) (projectId : String) :
    deleteKeyEntryState keys projectId =
      keys.filter (fun k => k.projectId != projectId) := by
  unfold deleteKeyEntryState deleteKeyEntry
  dsimp only
  split
  · rename_i hlen
    exact ((List.filter_sublist keys).eq_of_length hlen).symm
  · rfl

theorem getKeyEntry_deleteKeyEntryState (keys : List KeyEntry) (projectId : String) :
    getKeyEntry (deleteKeyEntryState keys projectId) projectId = none := by
  rw [deleteKeyEntryState_eq_filter]
  unfold getKeyEntry
  rw [List.find?_eq_none]
  intro x hx
  have := (List.mem_filter.mp hx).2
  simpa [bne_iff_ne] using this

/-! ## Claim C3: salt carried alongside the payload -/

/-- C3 (code bug): `pushCommand` decodes the keyring entry's salt field as
base64, but entries created by a pull store that field hex-encoded, so
the salt prefix uploaded by such a device is not the salt its key was
derived under, and a fresh device knowing only the passphrase fails with
an incorrect-passphrase error.  With an init-created entry (base64 salt)
the claimed self-sufficiency does hold, witnessing the intent. -/
theorem c3_salt_encoding_mismatch :
    base64Decode (pullKeyEntry modelKdf ("proj") (['p']) (bytesToHex sampleSalt) ("t1")).salt ≠
      sampleSalt ∧
    (runDecryptAttempt modelAEAD modelKdf [] ("proj") (['p']) ("t2")
      (pushUploadData modelAEAD sampleIv
        (pullKeyEntry modelKdf ("proj") (['p']) (bytesToHex sampleSalt) ("t1")) [1, 2])).1 =
      RunOutcome.incorrectPassphrase ∧
    (runDecryptAttempt modelAEAD modelKdf [] ("proj") (['p']) ("t2")
      (pushUploadData modelAEAD sampleIv
        (initKeyEntry modelKdf ("proj") (['p']) sampleSalt ("t1")) [1, 2])).1 =
      RunOutcome.ok [1, 2] := by decide

/-! ## Claim C4: keyring invalidation on decryption failure -/

/-- C4 (amended): when a cached keyring entry exists and the decrypt
attempt fails — with an authentication error or with a format error, not
only on authentication failure as claimed — the entry is deleted, the
next lookup finds no cached key, and the failure surfaces as the matching
error with no retry under a different key. -/
theorem c4_keyring_invalidation (A : AEAD) (kdf : List Char → List Byte → List Byte)
    (keys : List KeyEntry) (projectId : String) (passphrase : List Char) (now : String)
    (saltHex rest : List Char) (e : KeyEntry)
    (hs : ':' ∉ saltHex)
    (he : getKeyEntry keys projectId = some e)
    (hfail : decrypt A rest (base64Decode e.key) = DecryptResult.authError ∨
      decrypt A rest (base64Decode e.key) = DecryptResult.formatError) :
    (runDecryptAttempt A kdf keys projectId passphrase now (saltHex ++ ':' :: rest)).2 =
      deleteKeyEntryState keys projectId ∧
    getKeyEntry
      (runDecryptAttempt A kdf keys projectId passphrase now (saltHex ++ ':' :: rest)).2
      projectId = none ∧
    ((runDecryptAttempt A kdf keys projectId passphrase now (saltHex ++ ':' :: rest)).1 =
        RunOutcome.incorrectPassphrase ∨
      (runDecryptAttempt A kdf keys projectId passphrase now (saltHex ++ ':' :: rest)).1 =
        RunOutcome.decryptionFailed) := by
  have hsplit := splitFirst_append ':' rest saltHex hs
  rcases hfail with hf | hf
  · have hr : runDecryptAttempt A kdf keys projectId passphrase now (saltHex ++ ':' :: rest) =
        (RunOutcome.incorrectPassphrase, deleteKeyEntryState keys projectId) := by
      unfold runDecryptAttempt
      rw [hsplit]
      simp only [he, hf, Option.isSome_some, if_true]
    rw [hr]
    exact ⟨rfl, getKeyEntry_deleteKeyEntryState keys projectId, Or.inl rfl⟩
  · have hr : runDecryptAttempt A kdf keys projectId passphrase now (saltHex ++ ':' :: rest) =
        (RunOutcome.decryptionFailed, deleteKeyEntryState keys projectId) := by
      unfold runDecryptAttempt
      rw [hsplit]
      simp only [he, hf, Option.isSome_some, if_true]
    rw [hr]
    exact ⟨rfl, getKeyEntry_deleteKeyEntryState keys projectId, Or.inr rfl⟩

/-- Witness for C4 at concrete inputs: a stale cached key fails
authentication and the entry is removed. -/
theorem c4_keyring_invalidation_witness :
    (getKeyEntry [sampleStaleEntry] ("proj") = some sampleStaleEntry ∧
      decrypt modelAEAD (encrypt modelAEAD sampleIv [5] sampleKey)
        (base64Decode sampleStaleEntry.key) = DecryptResult.authError) ∧
    getKeyEntry
      (runDecryptAttempt modelAEAD modelKdf [sampleStaleEntry] ("proj") ([]) ("t2")
        (bytesToHex sampleSalt ++ ':' :: encrypt modelAEAD sampleIv [5] sampleKey)).2
      ("proj") = none :=
  ⟨⟨by decide, by decide⟩,
    (c4_keyring_invalidation modelAEAD modelKdf [sampleStaleEntry] ("proj") ([]) ("t2")
      (bytesToHex sampleSalt) (encrypt modelAEAD sampleIv [5] sampleKey) sampleStaleEntry
      (by decide) (by decide) (Or.inl (by decide))).2.1⟩

/-- Counterexample for C4 as stated: the entry is deleted on a decrypt
format failure as well, not exactly on authentication failure. -/
theorem c4_counterexample :
    (runDecryptAttempt modelAEAD modelKdf [KeyEntry.mk ("proj") ([]) ([]) ("t")] ("proj")
      ([]) ("t2") (['0', '0', ':', 'x'])).1 = RunOutcome.decryptionFailed ∧
    RunOutcome.decryptionFailed ≠ RunOutcome.incorrectPassphrase ∧
    getKeyEntry
      (runDecryptAttempt modelAEAD modelKdf [KeyEntry.mk ("proj") ([]) ([]) ("t")] ("proj")
        ([]) ("t2") (['0', '0', ':', 'x'])).2 ("proj") = none := by decide

/-! ## Claim C5: read resolution with legacy fallback -/

/-- C5: a read tries the stage-namespaced primary key first; only on a
primary miss with the default stage does it consult the legacy key, so
legacy payloads stay retrievable for the default stage, while for any
non-default stage a primary miss is a not-found regardless of what the
legacy key holds; `existsInR2` resolves exactly like the download. -/
theorem c5_read_resolution (store : String → Option String) (projectId stage : String) :
    (∀ d, store (getR2Key projectId stage) = some d →
      downloadFromR2 store projectId stage = some d) ∧
    (store (getR2Key projectId stage) = none → stage = DEFAULT_STAGE →
      downloadFromR2 store projectId stage = store (getLegacyR2Key projectId)) ∧
    (store (getR2Key projectId stage) = none → stage ≠ DEFAULT_STAGE →
      downloadFromR2 store projectId stage = none) ∧
    existsInR2 store projectId stage = (downloadFromR2 store projectId stage).isSome := by
  refine ⟨?_, ?_, ?_, ?_⟩
  · intro d hd
    simp [downloadFromR2, hd]
  · intro hmiss hdef
    subst hdef
    simp [downloadFromR2, hmiss]
  · intro hmiss hndef
    simp [downloadFromR2, hmiss, hndef]
  · cases hp : store (getR2Key projectId stage) with
    | some d => simp [downloadFromR2, existsInR2, hp]
    | none =>
      by_cases hdef : stage = DEFAULT_STAGE
      · subst hdef
        simp [downloadFromR2, existsInR2, hp]
      · simp [downloadFromR2, existsInR2, hp, hdef]

/-- Witness for C5: with only a legacy object present, the default stage
reads it and a non-default stage does not. -/
theorem c5_read_resolution_witness :
    downloadFromR2 (fun k => if k = getLegacyR2Key ("proj") then some ("data") else none)
      ("proj") ("staging") = none ∧
    downloadFromR2 (fun k => if k = getLegacyR2Key ("proj") then some ("data") else none)
      ("proj") DEFAULT_STAGE = some ("data") :=
  ⟨(c5_read_resolution (fun k => if k = getLegacyR2Key ("proj") then some ("data") else none)
      ("proj") ("staging")).2.2.1 (by decide) (by decide),
    ((c5_read_resolution (fun k => if k = getLegacyR2Key ("proj") then some ("data") else none)
      ("proj") DEFAULT_STAGE).2.1 (by decide) rfl).trans (by decide)⟩

/-! ## Claim C10: deleteKeyEntry frame -/

/-- C10: `deleteKeyEntry` writes back exactly the entries of other
projects (removing every entry of the given project and nothing else),
and when no entry matches it performs no write at all, leaving the stored
file untouched. -/
theorem c10_delete_exactly (keys : List KeyEntry) (projectId : String) :
    (deleteKeyEntry keys projectId = none ↔ ∀ e ∈ keys, e.projectId ≠ projectId) ∧
    (∀ w, deleteKeyEntry keys projectId = some w →
      ∀ e : KeyEntry, e ∈ w ↔ e ∈ keys ∧ e.projectId ≠ projectId) := by
  constructor
  · unfold deleteKeyEntry
    dsimp only
    constructor
    · intro hnone
      by_cases hlen :
          (List.filter (fun k => k.projectId != projectId) keys).length = keys.length
      · intro e he
        have hall := (List.filter_length_eq_length.mp hlen) e he
        simpa [bne_iff_ne] using hall
      · rw [if_neg hlen] at hnone
        exact absurd hnone (Option.some_ne_none _)
    · intro hall
      have hself : List.filter (fun k => k.projectId != projectId) keys = keys :=
        List.filter_eq_self.mpr (fun e he => by simpa [bne_iff_ne] using hall e he)
      rw [if_pos (by rw [hself])]
  · intro w hw e
    unfold deleteKeyEntry at hw
    dsimp only at hw
    by_cases hlen :
        (List.filter (fun k => k.projectId != projectId) keys).length = keys.length
    · rw [if_pos hlen] at hw
      exact absurd hw (by simp)
    · rw [if_neg hlen] at hw
      have hw2 := Option.some.inj hw
      subst hw2
      simp [List.mem_filter, bne_iff_ne]

/-- Witness for C10: deleting an absent project performs no write;
deleting a present one keeps exactly the other entries. -/
theorem c10_delete_exactly_witness :
    deleteKeyEntry [sampleStaleEntry] ("other") = none ∧
    (sampleStaleEntry ∈ List.filter (fun k => k.projectId != "proj") [sampleStaleEntry] ↔
      sampleStaleEntry ∈ [sampleStaleEntry] ∧ sampleStaleEntry.projectId ≠ "proj") :=
  ⟨(c10_delete_exactly [sampleStaleEntry] ("other")).1.mpr (by decide),
    by
      have h := (c10_delete_exactly [sampleStaleEntry] ("proj")).2
        (List.filter (fun k => k.projectId != "proj") [sampleStaleEntry]) (by decide)
        sampleStaleEntry
      exact h⟩

/-! ## Claim C8: at most one keyring entry per project -/

theorem mem_map_projectId_saveKeyEntry (e : KeyEntry) (a : String) :
    ∀ keys : List KeyEntry, a ∈ (saveKeyEntry keys e).map KeyEntry.projectId →
      a ∈ keys.map KeyEntry.projectId ∨ a = e.projectId
  | [], h => by
    simp [saveKeyEntry] at h
    exact Or.inr h
  | k :: rest, h => by
    unfold saveKeyEntry at h
    split at h
    · rename_i heq
      simp only [List.map_cons, List.mem_cons] at h ⊢
      rcases h with h | h
      · exact Or.inr h
      · exact Or.inl (Or.inr h)
    · simp only [List.map_cons, List.mem_cons] at h ⊢
      rcases h with h | h
      · exact Or.inl (Or.inl h)
      · rcases mem_map_projectId_saveKeyEntry e a rest h with h2 | h2
        · exact Or.inl (Or.inr h2)
        · exact Or.inr h2

theorem saveKeyEntry_preserves (e : KeyEntry) :
    ∀ keys : List KeyEntry, atMostOnePerProject keys →
      atMostOnePerProject (saveKeyEntry keys e)
  | [], _ => by simp [saveKeyEntry, atMostOnePerProject]
  | k :: rest, hinv => by
    have hnd := hinv
    unfold atMostOnePerProject at hnd
    simp only [List.map_cons, List.nodup_cons] at hnd
    unfold saveKeyEntry
    split
    · rename_i heq
      unfold atMostOnePerProject
      simp only [List.map_cons, List.nodup_cons]
      exact ⟨heq ▸ hnd.1, hnd.2⟩
    · rename_i hne
      unfold atMostOnePerProject
      simp only [List.map_cons, List.nodup_cons]
      refine ⟨?_, saveKeyEntry_preserves e rest hnd.2⟩
      intro hmem
      rcases mem_map_projectId_saveKeyEntry e k.projectId rest hmem with h | h
      · exact hnd.1 h
      · exact hne h

theorem deleteKeyEntryState_preserves (projectId : String) (keys : List KeyEntry)
    (hinv : atMostOnePerProject keys) :
    atMostOnePerProject (deleteKeyEntryState keys projectId) := by
  rw [deleteKeyEntryState_eq_filter]
  exact List.Nodup.sublist (List.Sublist.map _ (List.filter_sublist keys)) hinv

theorem applyOps_preserves (ops : List KeyringOp) :
    ∀ keys : List KeyEntry, atMostOnePerProject keys →
      atMostOnePerProject (applyOps keys ops) := by
  induction ops with
  | nil => exact fun keys h => h
  | cons op rest ih =>
    intro keys h
    cases op with
    | save e => exact ih _ (saveKeyEntry_preserves e keys h)
    | del pid => exact ih _ (deleteKeyEntryState_preserves pid keys h)

theorem saveKeyEntry_replaces (e : KeyEntry) :
    ∀ keys : List KeyEntry, (∃ x ∈ keys, x.projectId = e.projectId) →
      (saveKeyEntry keys e).length = keys.length ∧
      getKeyEntry (saveKeyEntry keys e) e.projectId = some e
  | [], hex => by simp at hex
  | k :: rest, hex => by
    unfold saveKeyEntry
    split
    · rename_i heq
      constructor
      · simp
      · unfold getKeyEntry
        simp [List.find?_cons]
    · rename_i hne
      have hex2 : ∃ x ∈ rest, x.projectId = e.projectId := by
        rcases hex with ⟨x, hx, hxe⟩
        rcases List.mem_cons.mp hx with h | h
        · exact absurd (h ▸ hxe) hne
        · exact ⟨x, h, hxe⟩
      have ih := saveKeyEntry_replaces e rest hex2
      constructor
      · simp [ih.1]
      · unfold getKeyEntry
        rw [List.find?_cons_of_neg]
        · exact ih.2
        · simp [hne]

/-- C8 (invariant): from any keyring with at most one entry per project,
every sequence of `saveKeyEntry`/`deleteKeyEntry` operations preserves
the invariant, and saving an entry for an already-present project id
replaces the entry (same number of entries, lookup finds the new entry)
rather than adding a second one. -/
theorem c8_at_most_one_entry (keys : List KeyEntry) (ops : List KeyringOp)
    (hinv : atMostOnePerProject keys) :
    atMostOnePerProject (applyOps keys ops) ∧
    ∀ e : KeyEntry, (∃ x ∈ keys, x.projectId = e.projectId) →
      (saveKeyEntry keys e).length = keys.length ∧
      getKeyEntry (saveKeyEntry keys e) e.projectId = some e :=
  ⟨applyOps_preserves ops keys hinv, fun e hex => saveKeyEntry_replaces e keys hex⟩

/-- Witness for C8 on a concrete keyring and operation sequence. -/
theorem c8_at_most_one_entry_witness :
    atMostOnePerProject
      (applyOps [sampleStaleEntry]
        [KeyringOp.save (KeyEntry.mk ("proj") ([]) ([]) ("t1")),
          KeyringOp.save (KeyEntry.mk ("other") ([]) ([]) ("t2")),
          KeyringOp.del ("proj")]) ∧
    (saveKeyEntry [sampleStaleEntry] (KeyEntry.mk ("proj") ([]) ([]) ("t1"))).length =
      List.length [sampleStaleEntry] :=
  ⟨(c8_at_most_one_entry [sampleStaleEntry]
      [KeyringOp.save (KeyEntry.mk ("proj") ([]) ([]) ("t1")),
        KeyringOp.save (KeyEntry.mk ("other") ([]) ([]) ("t2")),
        KeyringOp.del ("proj")] (by simp [atMostOnePerProject])).1,
    ((c8_at_most_one_entry [sampleStaleEntry] [] (by simp [atMostOnePerProject])).2
      (KeyEntry.mk ("proj") ([]) ([]) ("t1")) ⟨sampleStaleEntry, by simp, by decide⟩).1⟩

/-! ## Claim C9: config() never overrides existing process.env entries -/

/-- C9: with `override` unset or false, the `config()` population loop
leaves every variable already present in `process.env` unchanged, and a
key not already present ends up with its first value from the parsed
file (or stays absent when the file has none). -/
theorem c9_config_no_override (parsed : List (String × String))
    (env : String → Option String) (key : String) :
    (∀ v, env key = some v → configPopulate parsed false env key = some v) ∧
    (env key = none → configPopulate parsed false env key = List.lookup key parsed) := by
  induction parsed generalizing env with
  | nil => simp [configPopulate, List.lookup]
  | cons kv rest ih =>
    obtain ⟨k1, v1⟩ := kv
    have hstep : configPopulate ((k1, v1) :: rest) false env =
        configPopulate rest false
          (if (env k1).isSome = true ∧ (false : Bool) = false then env
            else fun k => if k = k1 then some v1 else env k) := rfl
    rw [hstep]
    cases henv : env k1 with
    | some w =>
      rw [if_pos (by simp [henv])]
      constructor
      · exact fun v hv => (ih env).1 v hv
      · intro hnone
        have hkne : ¬ key = k1 := fun hk => by
          rw [hk, henv] at hnone
          exact Option.some_ne_none w hnone
        have hb : (key == k1) = false := beq_eq_false_iff_ne.mpr hkne
        rw [(ih env).2 hnone]
        simp [List.lookup, hb]
    | none =>
      rw [if_neg (by simp [henv])]
      by_cases hk : key = k1
      · subst hk
        constructor
        · intro v hv
          rw [henv] at hv
          exact absurd hv (Option.noConfusion)
        · intro _
          have hupd : (fun k => if k = key then some v1 else env k) key = some v1 := by simp
          rw [(ih _).1 v1 hupd]
          simp [List.lookup]
      · have hupd : (fun k => if k = k1 then some v1 else env k) key = env key := by
          simp [hk]
        constructor
        · intro v hv
          exact (ih _).1 v (hupd.trans hv)
        · intro hnone
          have hb : (key == k1) = false := beq_eq_false_iff_ne.mpr hk
          rw [(ih _).2 (hupd.trans hnone)]
          simp [List.lookup, hb]

/-- Witness for C9 on a concrete environment and parsed file. -/
theorem c9_config_no_override_witness :
    configPopulate [(("A" : String), ("2" : String)), (("B" : String), ("3" : String))] false
      (fun k => if k = "A" then some ("1") else none) ("A") = some ("1") ∧
    configPopulate [(("A" : String), ("2" : String)), (("B" : String), ("3" : String))] false
      (fun k => if k = "A" then some ("1") else none) ("B") = some ("3") :=
  ⟨(c9_config_no_override [(("A" : String), ("2" : String)), (("B" : String), ("3" : String))]
      (fun k => if k = "A" then some ("1") else none) ("A")).1 ("1") (by decide),
    ((c9_config_no_override [(("A" : String), ("2" : String)), (("B" : String), ("3" : String))]
      (fun k => if k = "A" then some ("1") else none) ("B")).2 (by decide)).trans (by decide)⟩

/-! ## Claim C2: version ledger monotonicity (spec-modelled) -/

theorem foldr_max_init (l : List Version) (b : Nat) :
    l.foldr (fun v m => Nat.max v.sequenceNumber m) b = Nat.max (currentMax l) b := by
  induction l with
  | nil => simp [currentMax]
  | cons v rest ih =>
    show Nat.max v.sequenceNumber (rest.foldr (fun v m => Nat.max v.sequenceNumber m) b) =
      Nat.max (currentMax (v :: rest)) b
    rw [ih]
    have hc : currentMax (v :: rest) = Nat.max v.sequenceNumber (currentMax rest) := rfl
    rw [hc]
    exact (Nat.max_assoc v.sequenceNumber (currentMax rest) b).symm

theorem currentMax_append_singleton (l : List Version) (v : Version) :
    currentMax (l ++ [v]) = Nat.max (currentMax l) v.sequenceNumber := by
  show (l ++ [v]).foldr (fun v m => Nat.max v.sequenceNumber m) 0 =
    Nat.max (currentMax l) v.sequenceNumber
  rw [List.foldr_append, foldr_max_init]
  simp

theorem listVersions_pushMany :
    ∀ (pushes : List (Nat × Option String × List Char)) (l : List Version) (n : Nat),
      listVersions l = List.range' 1 n → currentMax l = n →
      listVersions (pushMany l pushes) = List.range' 1 (n + pushes.length)
  | [], l, n, hl, _ => by simpa using hl
  | p :: ps, l, n, hl, hm => by
    have hl2 : listVersions (pushVersion l p.1 p.2.1 p.2.2) = List.range' 1 (n + 1) := by
      unfold pushVersion listVersions
      rw [List.map_append, List.range'_concat]
      unfold listVersions at hl
      rw [hl, hm]
      simp [Nat.add_comm]
    have hm2 : currentMax (pushVersion l p.1 p.2.1 p.2.2) = n + 1 := by
      unfold pushVersion
      rw [currentMax_append_singleton, hm]
      exact Nat.max_eq_right (Nat.le_succ n)
    have ih := listVersions_pushMany ps (pushVersion l p.1 p.2.1 p.2.2) (n + 1) hl2 hm2
    have hpm : pushMany l (p :: ps) = pushMany (pushVersion l p.1 p.2.1 p.2.2) ps := rfl
    rw [hpm, ih]
    congr 1
    rw [List.length_cons]
    omega

/-- C2 (spec-modelled): after N successful pushes to a stage starting
from an empty ledger, the ledger holds exactly N versions whose sequence
numbers are 1, 2, …, N (strictly increasing from 1), and each push
appends — never overwrites — a version numbered `currentMax + 1`. -/
theorem c2_version_monotonicity (pushes : List (Nat × Option String × List Char)) :
    listVersions (pushMany [] pushes) = List.range' 1 pushes.length ∧
    ∀ (l : List Version) (t : Nat) (m : Option String) (pl : List Char),
      pushVersion l t m pl = l ++ [⟨currentMax l + 1, t, m, pl⟩] := by
  constructor
  · have h := listVersions_pushMany pushes [] 0 (by simp [listVersions]) rfl
    simpa using h
  · intro l t m pl
    rfl

/-- Witness for C2 on a concrete sequence of pushes. -/
theorem c2_version_monotonicity_witness :
    listVersions (pushMany [] [(10, none, []), (20, some ("m"), ['x'])]) = [1, 2] :=
  (c2_version_monotonicity [(10, none, []), (20, some ("m"), ['x'])]).1.trans (by decide)

end Envfy
